import Mathlib

/-!
Verification development for the active model-based reinforcement-learning
agent in `agents.py` (module-level helpers `_alpha`, `_getEstimates`,
`_getEstimatesOptimistic`, the three episode-running strategies
`adp_random_exploration`, `adp_random_exploration_state`,
`adp_optimistic_rewards`, and the `Agent` class with `clearExperience`,
`getPolicy` and `solve`).

Modelling conventions:
* States and actions are opaque hashable identifiers; both are modelled as `ℕ`.
* Python dicts are modelled as insertion-ordered association lists
  `List (ℕ × β)` with distinct keys: `dget` is `d.get(k)`, `dgetD` is
  `d.get(k, v0)`, `dset` is `d[k] = v` (updating in place or appending a new
  key at the end, exactly the insertion-order semantics of a dict), and
  iterating a dict yields its keys in list order.
* Rewards, utilities and probabilities (Python floats) are modelled as `ℚ`.
* Fallible operations return `Option`: `none` models a raised exception
  (`ZeroDivisionError` from `float(val)/n`, `ValueError` from `max` of an
  empty sequence, `IndexError` from `random.choice` of an empty sequence).
* The pseudo-random number generator is modelled by oracle streams indexed by
  the iteration counter: `rndO k` is the value drawn by `random.random()` at
  iteration `k`, and `chO k` selects the index used by `random.choice`
  (`random.choice(l)` is modelled as `l[chO k % l.length]?`).
-/

/-- `d.get(k)` on a Python dict modelled as an association list. -/
def dget {β : Type} : List (ℕ × β) → ℕ → Option β
  | [], _ => none
  | (k', v) :: rest, k => if k' = k then some v else dget rest k

/-- `d.get(k, v0)` on a Python dict. -/
def dgetD {β : Type} (d : List (ℕ × β)) (k : ℕ) (v0 : β) : β :=
  (dget d k).getD v0

/-- `d[k] = v` on a Python dict: overwrite in place if the key exists,
append the key at the end otherwise (dicts preserve insertion order). -/
def dset {β : Type} : List (ℕ × β) → ℕ → β → List (ℕ × β)
  | [], k, v => [(k, v)]
  | (k', v') :: rest, k, v =>
    if k' = k then (k', v) :: rest else (k', v') :: dset rest k v

/-- `d.setdefault(k, 0); d[k] += 1` — the frequency-count increment used by
all three strategies. -/
def dIncr (d : List (ℕ × ℕ)) (k : ℕ) : List (ℕ × ℕ) :=
  dset d k (dgetD d k 0 + 1)

/-- The keys of a dict in iteration (insertion) order. -/
def keysOf {β : Type} (d : List (ℕ × β)) : List ℕ :=
  d.map (fun p => p.1)

/-- Frequency table `N(s)`: state -> visit count. -/
abbrev Freqs := List (ℕ × ℕ)

/-- Utility table `U`: state -> estimated utility. -/
abbrev Utils := List (ℕ × ℚ)

/-- Transition model `T`: state -> action -> successor state -> count. -/
abbrev Transs := List (ℕ × List (ℕ × List (ℕ × ℕ)))

/-- Policy: state -> action. -/
abbrev Policy := List (ℕ × ℕ)

/-- `transs.setdefault(state, {}).setdefault(action, {}).setdefault(newState, 0)`
followed by `transs[state][action][newState] += 1`. -/
def tIncr (tr : Transs) (st ac newState : ℕ) : Transs :=
  dset tr st (dset (dgetD tr st []) ac (dIncr (dgetD (dgetD tr st []) ac []) newState))

/-- Python division `float(a)/n`: raises `ZeroDivisionError` when `n = 0`. -/
def pydiv (a n : ℕ) : Option ℚ :=
  if n = 0 then none else some ((a : ℚ) / (n : ℚ))

/-- All-or-nothing effectful map over a list: a `none` anywhere aborts the
whole computation, like an exception escaping a Python loop. -/
def omap {α β : Type} (f : α → Option β) : List α → Option (List β)
  | [] => some []
  | a :: as =>
    match f a, omap f as with
    | some b, some bs => some (b :: bs)
    | _, _ => none

/-- The step-size function `_alpha(n) = 50. / (49 + n)`. -/
def _alpha (n : ℕ) : ℚ :=
  50 / (49 + (n : ℚ))

/-- `(currActions or transs.get(currState, {}))`: Python `or` falls back to
the dict (iterated as its keys) when `currActions` is `None` or an empty
(falsy) list. -/
def resolveActs (transs : Transs) (currState : ℕ) (currActions : Option (List ℕ)) : List ℕ :=
  match currActions with
  | some l => if l.isEmpty then keysOf (dgetD transs currState []) else l
  | none => keysOf (dgetD transs currState [])

/-- Total observation count `n = sum(freq.values())` recorded for a
`(state, action)` pair in the transition model. -/
def nTotal (transs : Transs) (st ac : ℕ) : ℕ :=
  ((dgetD (dgetD transs st []) ac []).map (fun p => p.2)).sum

/-- `_getEstimates(transs, utils, currState, currActions)`: for each candidate
action read the successor counts, turn them into probabilities by dividing by
their sum (a per-entry division, so an empty count dict performs no division
while a zero total with entries raises), and emit the
`(expected utility, action)` pair. -/
def _getEstimates (transs : Transs) (utils : Utils) (currState : ℕ)
    (currActions : Option (List ℕ)) : Option (List (ℚ × ℕ)) :=
  omap (fun ac =>
    match omap (fun kv => (pydiv kv.2 (nTotal transs currState ac)).map
        (fun q => (kv.1, q))) (dgetD (dgetD transs currState []) ac []) with
    | none => none
    | some probs =>
      some ((probs.map (fun kv => kv.2 * dgetD utils kv.1 0)).sum, ac))
    (resolveActs transs currState currActions)

/-- `_getEstimatesOptimistic(transs, utils, currState, R_plus, N_e,
currActions)`: same probabilities and expected utility `u` as the plain
routine, but emit `(R_plus, action)` instead when the total observation count
`n` is below the threshold `N_e`. -/
def _getEstimatesOptimistic (transs : Transs) (utils : Utils) (currState : ℕ)
    (R_plus N_e : ℚ) (currActions : Option (List ℕ)) : Option (List (ℚ × ℕ)) :=
  omap (fun ac =>
    match omap (fun kv => (pydiv kv.2 (nTotal transs currState ac)).map
        (fun q => (kv.1, q))) (dgetD (dgetD transs currState []) ac []) with
    | none => none
    | some probs =>
      some (if ((nTotal transs currState ac : ℚ) < N_e)
            then (R_plus, ac)
            else ((probs.map (fun kv => kv.2 * dgetD utils kv.1 0)).sum, ac)))
    (resolveActs transs currState currActions)

/-- Python `max` over a list of `(estimate, action)` pairs: lexicographic
comparison on the pairs, keeping the earliest element among fully-equal ones;
raises `ValueError` (here `none`) on an empty list. -/
def pyLt (a b : ℚ × ℕ) : Bool :=
  decide (a.1 < b.1) || (decide (a.1 = b.1) && decide (a.2 < b.2))

/-- `max(estimates)` as the strategies and `getPolicy` use it. -/
def pymax : List (ℚ × ℕ) → Option (ℚ × ℕ)
  | [] => none
  | x :: xs => some (xs.foldl (fun m y => if pyLt m y then y else m) x)

/-- Modelled from the spec: the tie-breaking rule the spec asks the test
suite to pin, "first-seen action wins ties" — scan left to right and replace
the current maximum only on a strictly greater estimate. -/
def firstSeenMax : List (ℚ × ℕ) → Option (ℚ × ℕ)
  | [] => none
  | x :: xs => some (xs.foldl (fun m y => if decide (m.1 < y.1) then y else m) x)

/-- The environment contract the core consumes: a starting state, the
available actions per state, and `do(state, action)` returning
`(newState, reward, isTerminal)`.  `doAct` additionally takes the current
iteration index so that an internally stochastic environment can yield a
different outcome at every step. -/
structure PyEnv where
  getStartingState : ℕ
  getActions : ℕ → List ℕ
  doAct : ℕ → ℕ → ℕ → ℕ × ℚ × Bool
deriving Inhabited

/-- The local variables of the episode loop shared by the three strategies
(`t` is only used by `adp_random_exploration`). -/
structure EpState where
  transs : Transs
  utils : Utils
  freqs : Freqs
  t : ℚ
  itr : ℕ
  state : ℕ
  reward : ℚ
  actions : List ℕ
  best : Option ℕ
deriving Repr, DecidableEq

/-- Strategy A explore test: the outcome of
`random.random() < 1. / log(t+1)` is real-valued (natural logarithm), so it
is modelled by a Boolean oracle `exO` receiving the iteration index and the
current `t`. -/
def chooseA (exO : ℕ → ℚ → Bool) (chO : ℕ → ℕ) (s : EpState) : Option ℕ :=
  if exO s.itr s.t || s.best.isNone then
    s.actions[chO s.itr % s.actions.length]?
  else s.best

/-- Strategy B recomputes `t = float(len(freqs)) or 1.` at every step:
Python `or` replaces a falsy `0.0` with `1.`. -/
def tB (freqs : Freqs) : ℚ :=
  if freqs.length = 0 then 1 else (freqs.length : ℚ)

/-- Strategy B explore test `random.random() < 1. / (t+1) or bestAction is None`. -/
def exploreB (rndO : ℕ → ℚ) (s : EpState) : Bool :=
  decide (rndO s.itr < 1 / (tB s.freqs + 1)) || s.best.isNone

def chooseB (rndO : ℕ → ℚ) (chO : ℕ → ℕ) (s : EpState) : Option ℕ :=
  if exploreB rndO s then
    s.actions[chO s.itr % s.actions.length]?
  else s.best

/-- Strategy C only randomizes when no best action exists at all. -/
def chooseC (chO : ℕ → ℕ) (s : EpState) : Option ℕ :=
  match s.best with
  | some a => some a
  | none => s.actions[chO s.itr % s.actions.length]?

/-- One iteration of the `adp_random_exploration` episode loop
(`agents.py` lines 127-171): choose an action, execute it, increment the
frequency count of the state being entered, increment the transition count,
recompute the best estimate for the pre-action state with the updated model,
write `U[state] = reward + _alpha(freqs.get(state, 0)) * rewardEstimate`
(the running `reward` carried from the previous iteration, and the already
incremented frequency table), then recompute the best action for the new
state.  Note the source binds the `alpha` keyword argument but the update
calls `_alpha` directly. -/
def stepA (e : PyEnv) (exO : ℕ → ℚ → Bool) (chO : ℕ → ℕ) (tStep : ℚ)
    (s : EpState) : Option (EpState × Bool) :=
  match chooseA exO chO s with
  | none => none
  | some act =>
    match e.doAct s.itr s.state act with
    | (newState, new_reward, isTerminal) =>
      match _getEstimates (tIncr s.transs s.state act newState) s.utils s.state
          (some (e.getActions s.state)) with
      | none => none
      | some ests =>
        match pymax ests with
        | none => none
        | some m =>
          match _getEstimates (tIncr s.transs s.state act newState)
              (dset s.utils s.state
                (s.reward + _alpha (dgetD (dIncr s.freqs newState) s.state 0) * m.1))
              newState (some (e.getActions newState)) with
          | none => none
          | some ests2 =>
            match pymax ests2 with
            | none => none
            | some m2 =>
              some ({ transs := tIncr s.transs s.state act newState,
                      utils := dset s.utils s.state
                        (s.reward + _alpha (dgetD (dIncr s.freqs newState) s.state 0) * m.1),
                      freqs := dIncr s.freqs newState,
                      t := s.t + tStep,
                      itr := s.itr + 1,
                      state := newState,
                      reward := new_reward,
                      actions := e.getActions newState,
                      best := some m2.2 }, isTerminal)

/-- One iteration of the `adp_random_exploration_state` episode loop
(`agents.py` lines 203-238); identical to `stepA` except for the explore
test and the absence of the `t` counter. -/
def stepB (e : PyEnv) (rndO : ℕ → ℚ) (chO : ℕ → ℕ) (s : EpState) :
    Option (EpState × Bool) :=
  match chooseB rndO chO s with
  | none => none
  | some act =>
    match e.doAct s.itr s.state act with
    | (newState, new_reward, isTerminal) =>
      match _getEstimates (tIncr s.transs s.state act newState) s.utils s.state
          (some (e.getActions s.state)) with
      | none => none
      | some ests =>
        match pymax ests with
        | none => none
        | some m =>
          match _getEstimates (tIncr s.transs s.state act newState)
              (dset s.utils s.state
                (s.reward + _alpha (dgetD (dIncr s.freqs newState) s.state 0) * m.1))
              newState (some (e.getActions newState)) with
          | none => none
          | some ests2 =>
            match pymax ests2 with
            | none => none
            | some m2 =>
              some ({ transs := tIncr s.transs s.state act newState,
                      utils := dset s.utils s.state
                        (s.reward + _alpha (dgetD (dIncr s.freqs newState) s.state 0) * m.1),
                      freqs := dIncr s.freqs newState,
                      t := s.t,
                      itr := s.itr + 1,
                      state := newState,
                      reward := new_reward,
                      actions := e.getActions newState,
                      best := some m2.2 }, isTerminal)

/-- One iteration of the `adp_optimistic_rewards` episode loop
(`agents.py` lines 273-314); the estimates are the optimistic ones. -/
def stepC (e : PyEnv) (chO : ℕ → ℕ) (R_plus N_e : ℚ) (s : EpState) :
    Option (EpState × Bool) :=
  match chooseC chO s with
  | none => none
  | some act =>
    match e.doAct s.itr s.state act with
    | (newState, new_reward, isTerminal) =>
      match _getEstimatesOptimistic (tIncr s.transs s.state act newState) s.utils
          s.state R_plus N_e (some (e.getActions s.state)) with
      | none => none
      | some ests =>
        match pymax ests with
        | none => none
        | some m =>
          match _getEstimatesOptimistic (tIncr s.transs s.state act newState)
              (dset s.utils s.state
                (s.reward + _alpha (dgetD (dIncr s.freqs newState) s.state 0) * m.1))
              newState R_plus N_e (some (e.getActions newState)) with
          | none => none
          | some ests2 =>
            match pymax ests2 with
            | none => none
            | some m2 =>
              some ({ transs := tIncr s.transs s.state act newState,
                      utils := dset s.utils s.state
                        (s.reward + _alpha (dgetD (dIncr s.freqs newState) s.state 0) * m.1),
                      freqs := dIncr s.freqs newState,
                      t := s.t,
                      itr := s.itr + 1,
                      state := newState,
                      reward := new_reward,
                      actions := e.getActions newState,
                      best := some m2.2 }, isTerminal)

/-- The `while not isTerminal` loop shared by the three strategies: run one
step, stop on a terminal outcome or once `itr >= maxItr`, otherwise repeat;
the returned value is the iteration count.  `fuel` is an upper bound on the
remaining iterations; the wrappers pass `max maxItr 1`, which the `itr`
cap makes sufficient (the body runs at most `max maxItr 1` times because
`itr` starts at `0` and increases by one per iteration). -/
def runEp (step : EpState → Option (EpState × Bool)) (maxItr : ℕ) :
    ℕ → EpState → Option (ℕ × EpState)
  | 0, _ => none
  | fuel + 1, s =>
    match step s with
    | none => none
    | some (s', isTerminal) =>
      if isTerminal then some (s'.itr, s')
      else if maxItr ≤ s'.itr then some (s'.itr, s')
      else runEp step maxItr fuel s'

/-- The local variables established before the episode loop: `reward = 0`,
`state` the starting state, `actions` its available actions, `itr = 0`. -/
def initEp (e : PyEnv) (transs : Transs) (utils : Utils) (freqs : Freqs)
    (t0 : ℚ) (best : Option ℕ) : EpState :=
  { transs := transs, utils := utils, freqs := freqs, t := t0, itr := 0,
    state := e.getStartingState, reward := 0,
    actions := e.getActions e.getStartingState, best := best }

/-- `adp_random_exploration(env, transs, utils, freqs, t, tStep, alpha,
maxItr)`: the `alpha` keyword is bound by the source (line 111) but the
utility update calls `_alpha` directly (line 151), so the parameter is
unused here exactly as in the source.  Returns the iteration count
together with the mutated tables. -/
def adp_random_exploration (e : PyEnv) (transs : Transs) (utils : Utils)
    (freqs : Freqs) (t0 tStep : ℚ) (alpha : ℕ → ℚ) (maxItr : ℕ)
    (exO : ℕ → ℚ → Bool) (chO : ℕ → ℕ) : Option (ℕ × Transs × Utils × Freqs) :=
  match (if 0 < utils.length then
          match _getEstimates transs utils e.getStartingState
              (some (e.getActions e.getStartingState)) with
          | none => none
          | some ests =>
            match pymax ests with
            | none => none
            | some m => some (some m.2)
         else some (none : Option ℕ)) with
  | none => none
  | some best =>
    match runEp (stepA e exO chO tStep) maxItr (max maxItr 1)
        (initEp e transs utils freqs t0 best) with
    | none => none
    | some (itr, sF) => some (itr, sF.transs, sF.utils, sF.freqs)

/-- `adp_random_exploration_state(env, transs, utils, freqs, alpha, maxItr)`:
the pre-loop best-estimate block is commented out in the source, so the
episode always starts with no best action; `alpha` is again bound but
unused. -/
def adp_random_exploration_state (e : PyEnv) (transs : Transs) (utils : Utils)
    (freqs : Freqs) (alpha : ℕ → ℚ) (maxItr : ℕ) (rndO : ℕ → ℚ)
    (chO : ℕ → ℕ) : Option (ℕ × Transs × Utils × Freqs) :=
  match runEp (stepB e rndO chO) maxItr (max maxItr 1)
      (initEp e transs utils freqs 0 none) with
  | none => none
  | some (itr, sF) => some (itr, sF.transs, sF.utils, sF.freqs)

/-- `adp_optimistic_rewards(env, transs, utils, freqs, R_plus, N_e, alpha,
maxItr)`. -/
def adp_optimistic_rewards (e : PyEnv) (transs : Transs) (utils : Utils)
    (freqs : Freqs) (R_plus N_e : ℚ) (alpha : ℕ → ℚ) (maxItr : ℕ)
    (chO : ℕ → ℕ) : Option (ℕ × Transs × Utils × Freqs) :=
  match (if 0 < utils.length then
          match _getEstimatesOptimistic transs utils e.getStartingState R_plus
              N_e (some (e.getActions e.getStartingState)) with
          | none => none
          | some ests =>
            match pymax ests with
            | none => none
            | some m => some (some m.2)
         else some (none : Option ℕ)) with
  | none => none
  | some best =>
    match runEp (stepC e chO R_plus N_e) maxItr (max maxItr 1)
        (initEp e transs utils freqs 1 best) with
    | none => none
    | some (itr, sF) => some (itr, sF.transs, sF.utils, sF.freqs)

/-- The long-lived tables owned by an `Agent`. -/
structure AgentState where
  nTable : Freqs
  transTable : Transs
  uTable : Utils
  results : List ℚ
deriving Repr, DecidableEq

/-- `Agent.clearExperience`: every table reset to empty. -/
def clearExperience : AgentState :=
  { nTable := [], transTable := [], uTable := [], results := [] }

/-- `Agent.getPolicy`: for every state recorded in the transition model pick
the action of `max(_getEstimates(transTable, uTable, state))`. -/
def getPolicy (a : AgentState) : Option Policy :=
  omap (fun st =>
    match _getEstimates a.transTable a.uTable st none with
    | none => none
    | some ests =>
      match pymax ests with
      | none => none
      | some m => some (st, m.2))
    (keysOf a.transTable)

/-- The action `solve` executes in a state: the policy entry when present,
otherwise `random.choice(env.getActions(state))`. -/
def chooseSolve (e : PyEnv) (chO : ℕ → ℕ) (k : ℕ) (policy : Policy)
    (st : ℕ) : Option ℕ :=
  match dget policy st with
  | some a => some a
  | none => (e.getActions st)[chO k % (e.getActions st).length]?

/-- The `while not isTerminalState` loop of `Agent.solve`: execute the chosen
action, append it to the trace, add the reward to the running total, stop on
termination or break once the total drops below `-1000`.  The source loop has
no iteration cap, so `fuel` bounds the modelled number of steps. -/
def solveLoop (e : PyEnv) (chO : ℕ → ℕ) (policy : Policy) :
    ℕ → ℕ → ℕ → List ℕ → ℚ → Option (List ℕ × ℚ)
  | 0, _, _, _, _ => none
  | fuel + 1, k, st, acts, energy =>
    match chooseSolve e chO k policy st with
    | none => none
    | some act =>
      match e.doAct k st act with
      | (st', r, isTerminal) =>
        if isTerminal then some (acts ++ [act], energy + r)
        else if energy + r < -1000 then some (acts ++ [act], energy + r)
        else solveLoop e chO policy fuel (k + 1) st' (acts ++ [act]) (energy + r)

/-- `Agent.solve(env, policy)`: replay `policy` from the starting state,
returning the action trace and total accumulated reward. -/
def solve (e : PyEnv) (chO : ℕ → ℕ) (policy : Policy) (fuel : ℕ) :
    Option (List ℕ × ℚ) :=
  solveLoop e chO policy fuel 0 e.getStartingState [] 0

/-- The module-level default arguments `transs={}, utils={}, freqs={}`:
Python evaluates them once at definition time, so every bare call (one that
supplies no tables) reads and mutates the same three dicts. -/
structure ModuleState where
  dTranss : Transs
  dUtils : Utils
  dFreqs : Freqs
deriving Repr, DecidableEq

/-- The default dicts as created when `agents.py` is imported. -/
def moduleInit : ModuleState :=
  { dTranss := [], dUtils := [], dFreqs := [] }

/-- A bare call `adp_random_exploration(env)` with no tables supplied: it
runs on the shared module-level default dicts and leaves its mutations
there for the next bare call. -/
def bareCallA (m : ModuleState) (e : PyEnv) (t0 tStep : ℚ) (alpha : ℕ → ℚ)
    (maxItr : ℕ) (exO : ℕ → ℚ → Bool) (chO : ℕ → ℕ) :
    Option (ℕ × ModuleState) :=
  match adp_random_exploration e m.dTranss m.dUtils m.dFreqs t0 tStep alpha
      maxItr exO chO with
  | none => none
  | some (itr, tr, u, f) =>
    some (itr, { dTranss := tr, dUtils := u, dFreqs := f })

/-- Lexicographic order on `(estimate, action)` pairs — the order Python's
`max` uses on tuples. -/
def lexLe (a b : ℚ × ℕ) : Prop :=
  a.1 < b.1 ∨ (a.1 = b.1 ∧ a.2 ≤ b.2)

/-- An environment whose single step enters a terminal state that offers no
actions and that the model has never recorded: starting state `0` with the
single action `5`, `do(0, 5) = (1, 3, True)`, `getActions(1) = []`. -/
def envT : PyEnv where
  getStartingState := 0
  getActions := fun st => if st = 0 then [5] else []
  doAct := fun _ _ _ => (1, 3, true)

/-- A one-state environment with the single action `7`, reward `5`, and
immediate termination on a self-loop. -/
def envU : PyEnv where
  getStartingState := 0
  getActions := fun _ => [7]
  doAct := fun _ _ _ => (0, 5, true)

/-- An environment that always returns reward `-2000` and never
terminates. -/
def envD : PyEnv where
  getStartingState := 0
  getActions := fun _ => [4]
  doAct := fun _ st _ => (st, -2000, false)

/-- A transition model in which state `0` has two recorded actions `1` and
`3`, each observed once leading to the successor `2`:  with an empty utility
table both actions get the same estimate `0`. -/
def transsC : Transs :=
  [(0, [(1, [(2, 1)]), (3, [(2, 1)])])]

/-- An agent holding `transsC` with empty utilities. -/
def agentC : AgentState :=
  { nTable := [], transTable := transsC, uTable := [], results := [] }

/-- The episode-loop state at the first iteration of a fresh episode on
`envU`. -/
def s0 : EpState where
  transs := []
  utils := []
  freqs := []
  t := 1
  itr := 0
  state := 0
  reward := 0
  actions := [7]
  best := none

/-- The module-level default tables after one bare call
`adp_random_exploration(envU)`. -/
def m1 : ModuleState where
  dTranss := [(0, [(7, [(0, 1)])])]
  dUtils := [(0, 0)]
  dFreqs := [(0, 1)]

/-- The episode-loop state after one `stepA` iteration on `envU` from
`s0`. -/
def s1A : EpState where
  transs := [(0, [(7, [(0, 1)])])]
  utils := [(0, 0)]
  freqs := [(0, 1)]
  t := 9/5
  itr := 1
  state := 0
  reward := 5
  actions := [7]
  best := some 7

/-- The episode-loop state after one `stepB` iteration on `envU` from
`s0`. -/
def s1B : EpState where
  transs := [(0, [(7, [(0, 1)])])]
  utils := [(0, 0)]
  freqs := [(0, 1)]
  t := 1
  itr := 1
  state := 0
  reward := 5
  actions := [7]
  best := some 7

/-- The episode-loop state after one `stepC` iteration on `envU` from
`s0` (with `R_plus = 5`, `N_e = 12`). -/
def s1C : EpState where
  transs := [(0, [(7, [(0, 1)])])]
  utils := [(0, 5)]
  freqs := [(0, 1)]
  t := 1
  itr := 1
  state := 0
  reward := 5
  actions := [7]
  best := some 7

theorem dget_dset {β : Type} (d : List (ℕ × β)) (k j : ℕ) (v : β) :
    dget (dset d k v) j = if k = j then some v else dget d j := by
  induction d with
  | nil => simp [dset, dget]
  | cons p rest ih =>
    obtain ⟨k', v'⟩ := p
    by_cases h1 : k' = k
    · subst h1
      by_cases h2 : k' = j <;> simp [dset, dget, h2]
    · by_cases h2 : k' = j
      · subst h2
        have : ¬ k = k' := fun h => h1 h.symm
        simp [dset, dget, h1, this]
      · simp [dset, dget, h1, h2, ih]

theorem dset_ne_nil {β : Type} (d : List (ℕ × β)) (k : ℕ) (v : β) :
    dset d k v ≠ [] := by
  cases d with
  | nil => simp [dset]
  | cons p rest =>
    obtain ⟨k', v'⟩ := p
    by_cases h : k' = k <;> simp [dset, h]

theorem dgetD_dIncr_le (d : Freqs) (k j : ℕ) :
    dgetD d j 0 ≤ dgetD (dIncr d k) j 0 := by
  unfold dIncr dgetD
  rw [dget_dset]
  by_cases h : k = j
  · subst h
    simp [dgetD]
  · simp [h]

theorem omap_map_zip {α β γ : Type} (f : α → Option β) (g : α → Option γ)
    (φ : α → β → γ) (hfg : ∀ a, g a = (f a).map (φ a)) :
    ∀ l : List α, omap g l = (omap f l).map (fun bs => List.zipWith φ l bs) := by
  intro l
  induction l with
  | nil => simp [omap]
  | cons a as ih =>
    simp only [omap, hfg a, ih]
    cases hf : f a <;> cases hfa : omap f as <;> simp

theorem lexLe_refl (a : ℚ × ℕ) : lexLe a a :=
  Or.inr ⟨rfl, le_refl _⟩

theorem lexLe_trans {a b c : ℚ × ℕ} (h1 : lexLe a b) (h2 : lexLe b c) :
    lexLe a c := by
  rcases h1 with h | ⟨e1, le1⟩ <;> rcases h2 with h' | ⟨e2, le2⟩
  · exact Or.inl (lt_trans h h')
  · exact Or.inl (e2 ▸ h)
  · exact Or.inl (e1 ▸ h')
  · exact Or.inr ⟨e1.trans e2, le_trans le1 le2⟩

theorem pyLt_true {a b : ℚ × ℕ} (h : pyLt a b = true) : lexLe a b := by
  unfold pyLt at h
  simp only [Bool.or_eq_true, Bool.and_eq_true, decide_eq_true_eq] at h
  rcases h with h | ⟨e, hlt⟩
  · exact Or.inl h
  · exact Or.inr ⟨e, le_of_lt hlt⟩

theorem pyLt_false {a b : ℚ × ℕ} (h : pyLt a b = false) : lexLe b a := by
  unfold pyLt at h
  simp only [Bool.or_eq_false_iff, Bool.and_eq_false_iff, decide_eq_false_iff_not] at h
  obtain ⟨h1, h2⟩ := h
  rcases lt_or_eq_of_le (le_of_not_lt h1) with hlt | heq
  · exact Or.inl hlt
  · refine Or.inr ⟨heq, ?_⟩
    rcases h2 with hne | hnlt
    · exact absurd heq.symm hne
    · exact le_of_not_lt hnlt

theorem pyfold_spec (xs : List (ℚ × ℕ)) (x : ℚ × ℕ) :
    (xs.foldl (fun m y => if pyLt m y then y else m) x ∈ x :: xs) ∧
      lexLe x (xs.foldl (fun m y => if pyLt m y then y else m) x) ∧
      ∀ y ∈ xs, lexLe y (xs.foldl (fun m y => if pyLt m y then y else m) x) := by
  induction xs generalizing x with
  | nil => exact ⟨List.mem_singleton.mpr rfl, lexLe_refl x, by simp⟩
  | cons y ys ih =>
    simp only [List.foldl_cons]
    obtain ⟨ihMem, ihLe, ihAll⟩ := ih (if pyLt x y then y else x)
    by_cases hxy : pyLt x y = true
    · rw [if_pos hxy] at ihMem ihLe ihAll ⊢
      refine ⟨?_, ?_, ?_⟩
      · rcases List.mem_cons.mp ihMem with h | h
        · rw [h]; exact List.mem_cons_of_mem x (List.mem_cons_self y ys)
        · exact List.mem_cons_of_mem x (List.mem_cons_of_mem y h)
      · exact lexLe_trans (pyLt_true hxy) ihLe
      · intro z hz
        rcases List.mem_cons.mp hz with h | h
        · exact h ▸ ihLe
        · exact ihAll z h
    · rw [if_neg hxy] at ihMem ihLe ihAll ⊢
      have hyx : lexLe y x := pyLt_false (Bool.eq_false_iff.mpr hxy)
      refine ⟨?_, ihLe, ?_⟩
      · rcases List.mem_cons.mp ihMem with h | h
        · rw [h]; exact List.mem_cons_self x (y :: ys)
        · exact List.mem_cons_of_mem x (List.mem_cons_of_mem y h)
      · intro z hz
        rcases List.mem_cons.mp hz with h | h
        · exact h ▸ lexLe_trans hyx ihLe
        · exact ihAll z h

theorem stepA_shape (e : PyEnv) (exO : ℕ → ℚ → Bool) (chO : ℕ → ℕ)
    (tStep : ℚ) (s s' : EpState) (term : Bool)
    (h : stepA e exO chO tStep s = some (s', term)) :
    ∃ act ests m ests2 m2,
      chooseA exO chO s = some act ∧
      _getEstimates (tIncr s.transs s.state act (e.doAct s.itr s.state act).1)
        s.utils s.state (some (e.getActions s.state)) = some ests ∧
      pymax ests = some m ∧
      pymax ests2 = some m2 ∧
      s' = { transs := tIncr s.transs s.state act (e.doAct s.itr s.state act).1,
             utils := dset s.utils s.state (s.reward +
               _alpha (dgetD (dIncr s.freqs (e.doAct s.itr s.state act).1) s.state 0) * m.1),
             freqs := dIncr s.freqs (e.doAct s.itr s.state act).1,
             t := s.t + tStep,
             itr := s.itr + 1,
             state := (e.doAct s.itr s.state act).1,
             reward := (e.doAct s.itr s.state act).2.1,
             actions := e.getActions (e.doAct s.itr s.state act).1,
             best := some m2.2 } ∧
      term = (e.doAct s.itr s.state act).2.2 := by
  unfold stepA at h
  rcases hc : chooseA exO chO s with _ | act
  · rw [hc] at h; cases h
  simp only [hc] at h
  rcases hdo : e.doAct s.itr s.state act with ⟨ns, nr, it⟩
  simp only [hdo] at h
  rcases he : _getEstimates (tIncr s.transs s.state act ns) s.utils s.state
      (some (e.getActions s.state)) with _ | ests
  · simp only [he] at h; exact Option.noConfusion h
  simp only [he] at h
  rcases hm : pymax ests with _ | m
  · simp only [hm] at h; exact Option.noConfusion h
  simp only [hm] at h
  rcases he2 : _getEstimates (tIncr s.transs s.state act ns)
      (dset s.utils s.state (s.reward +
        _alpha (dgetD (dIncr s.freqs ns) s.state 0) * m.1))
      ns (some (e.getActions ns)) with _ | ests2
  · simp only [he2] at h; exact Option.noConfusion h
  simp only [he2] at h
  rcases hm2 : pymax ests2 with _ | m2
  · simp only [hm2] at h; exact Option.noConfusion h
  simp only [hm2] at h
  simp only [Option.some.injEq, Prod.mk.injEq] at h
  obtain ⟨hs', hterm⟩ := h
  refine ⟨act, ests, m, ests2, m2, rfl, ?_, hm, hm2, ?_, ?_⟩ <;>
    simp [hdo, hs'.symm, hterm.symm, he]

theorem stepB_shape (e : PyEnv) (rndO : ℕ → ℚ) (chO : ℕ → ℕ)
    (s s' : EpState) (term : Bool)
    (h : stepB e rndO chO s = some (s', term)) :
    ∃ act ests m ests2 m2,
      chooseB rndO chO s = some act ∧
      _getEstimates (tIncr s.transs s.state act (e.doAct s.itr s.state act).1)
        s.utils s.state (some (e.getActions s.state)) = some ests ∧
      pymax ests = some m ∧
      pymax ests2 = some m2 ∧
      s' = { transs := tIncr s.transs s.state act (e.doAct s.itr s.state act).1,
             utils := dset s.utils s.state (s.reward +
               _alpha (dgetD (dIncr s.freqs (e.doAct s.itr s.state act).1) s.state 0) * m.1),
             freqs := dIncr s.freqs (e.doAct s.itr s.state act).1,
             t := s.t,
             itr := s.itr + 1,
             state := (e.doAct s.itr s.state act).1,
             reward := (e.doAct s.itr s.state act).2.1,
             actions := e.getActions (e.doAct s.itr s.state act).1,
             best := some m2.2 } ∧
      term = (e.doAct s.itr s.state act).2.2 := by
  unfold stepB at h
  rcases hc : chooseB rndO chO s with _ | act
  · rw [hc] at h; cases h
  simp only [hc] at h
  rcases hdo : e.doAct s.itr s.state act with ⟨ns, nr, it⟩
  simp only [hdo] at h
  rcases he : _getEstimates (tIncr s.transs s.state act ns) s.utils s.state
      (some (e.getActions s.state)) with _ | ests
  · simp only [he] at h; exact Option.noConfusion h
  simp only [he] at h
  rcases hm : pymax ests with _ | m
  · simp only [hm] at h; exact Option.noConfusion h
  simp only [hm] at h
  rcases he2 : _getEstimates (tIncr s.transs s.state act ns)
      (dset s.utils s.state (s.reward +
        _alpha (dgetD (dIncr s.freqs ns) s.state 0) * m.1))
      ns (some (e.getActions ns)) with _ | ests2
  · simp only [he2] at h; exact Option.noConfusion h
  simp only [he2] at h
  rcases hm2 : pymax ests2 with _ | m2
  · simp only [hm2] at h; exact Option.noConfusion h
  simp only [hm2] at h
  simp only [Option.some.injEq, Prod.mk.injEq] at h
  obtain ⟨hs', hterm⟩ := h
  refine ⟨act, ests, m, ests2, m2, rfl, ?_, hm, hm2, ?_, ?_⟩ <;>
    simp [hdo, hs'.symm, hterm.symm, he]

theorem stepC_shape (e : PyEnv) (chO : ℕ → ℕ) (R_plus N_e : ℚ)
    (s s' : EpState) (term : Bool)
    (h : stepC e chO R_plus N_e s = some (s', term)) :
    ∃ act ests m ests2 m2,
      chooseC chO s = some act ∧
      _getEstimatesOptimistic (tIncr s.transs s.state act (e.doAct s.itr s.state act).1)
        s.utils s.state R_plus N_e (some (e.getActions s.state)) = some ests ∧
      pymax ests = some m ∧
      pymax ests2 = some m2 ∧
      s' = { transs := tIncr s.transs s.state act (e.doAct s.itr s.state act).1,
             utils := dset s.utils s.state (s.reward +
               _alpha (dgetD (dIncr s.freqs (e.doAct s.itr s.state act).1) s.state 0) * m.1),
             freqs := dIncr s.freqs (e.doAct s.itr s.state act).1,
             t := s.t,
             itr := s.itr + 1,
             state := (e.doAct s.itr s.state act).1,
             reward := (e.doAct s.itr s.state act).2.1,
             actions := e.getActions (e.doAct s.itr s.state act).1,
             best := some m2.2 } ∧
      term = (e.doAct s.itr s.state act).2.2 := by
  unfold stepC at h
  rcases hc : chooseC chO s with _ | act
  · rw [hc] at h; cases h
  simp only [hc] at h
  rcases hdo : e.doAct s.itr s.state act with ⟨ns, nr, it⟩
  simp only [hdo] at h
  rcases he : _getEstimatesOptimistic (tIncr s.transs s.state act ns) s.utils
      s.state R_plus N_e (some (e.getActions s.state)) with _ | ests
  · simp only [he] at h; exact Option.noConfusion h
  simp only [he] at h
  rcases hm : pymax ests with _ | m
  · simp only [hm] at h; exact Option.noConfusion h
  simp only [hm] at h
  rcases he2 : _getEstimatesOptimistic (tIncr s.transs s.state act ns)
      (dset s.utils s.state (s.reward +
        _alpha (dgetD (dIncr s.freqs ns) s.state 0) * m.1))
      ns R_plus N_e (some (e.getActions ns)) with _ | ests2
  · simp only [he2] at h; exact Option.noConfusion h
  simp only [he2] at h
  rcases hm2 : pymax ests2 with _ | m2
  · simp only [hm2] at h; exact Option.noConfusion h
  simp only [hm2] at h
  simp only [Option.some.injEq, Prod.mk.injEq] at h
  obtain ⟨hs', hterm⟩ := h
  refine ⟨act, ests, m, ests2, m2, rfl, ?_, hm, hm2, ?_, ?_⟩ <;>
    simp [hdo, hs'.symm, hterm.symm, he]

theorem solveLoop_extends (e : PyEnv) (chO : ℕ → ℕ) (policy : Policy) :
    ∀ (fuel k st : ℕ) (acts : List ℕ) (energy : ℚ) (tr : List ℕ) (en : ℚ),
      solveLoop e chO policy fuel k st acts energy = some (tr, en) →
      ∃ rest, tr = acts ++ rest := by
  intro fuel
  induction fuel with
  | zero => intro k st acts energy tr en h; cases h
  | succ f ih =>
    intro k st acts energy tr en h
    unfold solveLoop at h
    rcases hc : chooseSolve e chO k policy st with _ | act
    · rw [hc] at h; cases h
    simp only [hc] at h
    rcases hdo : e.doAct k st act with ⟨st', r, term⟩
    simp only [hdo] at h
    split at h
    · simp only [Option.some.injEq, Prod.mk.injEq] at h
      exact ⟨[act], h.1.symm⟩
    · split at h
      · simp only [Option.some.injEq, Prod.mk.injEq] at h
        exact ⟨[act], h.1.symm⟩
      · obtain ⟨rest, hr⟩ := ih (k + 1) st' (acts ++ [act]) (energy + r) tr en h
        exact ⟨[act] ++ rest, by simp [hr]⟩

/-- C1: the claim says no step of the episode loop faults and the engine
degrades to random behavior even when a state has an empty available-action
list and no recorded transitions.  The code contradicts it: on `envT`, whose
single step enters a terminal state `1` with `getActions(1) = []` and no
transitions recorded for it, the best-action recomputation for the successor
state takes `max` of an empty estimate sequence and the episode aborts with
an error (modelled by `none`). -/
theorem c1_empty_actions_fault :
    adp_random_exploration envT [] [] [] 1 (4/5) _alpha 50 (fun _ _ => false)
      (fun _ => 0) = none := by
  rfl

/-- C2: the claim says a caller-supplied step-size function replaces the
default in every utility update.  The code contradicts it: supplying the
constant-zero schedule to `adp_random_exploration` on `envU` (with a
preloaded utility `U[0] = 2` and frequency `N[0] = 1`) still produces
`U[0] = 0 + _alpha(2) * 2 = 100/51`, not the `0 + 0 * 2 = 0` the supplied
schedule would give: the update uses `_alpha` regardless. -/
theorem c2_alpha_override_ignored :
    adp_random_exploration envU [] [(0, 2)] [(0, 1)] 1 (4/5) (fun _ => 0) 50
      (fun _ _ => false) (fun _ => 0) =
      some (1, [(0, [(7, [(0, 1)])])], [(0, 100 / 51)], [(0, 2)]) ∧
    (100 / 51 : ℚ) = 0 + _alpha 2 * 2 ∧
    (100 / 51 : ℚ) ≠ 0 + 0 * 2 := by
  refine ⟨?_, ?_, ?_⟩
  · with_unfolding_all rfl
  · with_unfolding_all rfl
  · norm_num

/-- C4: the claim says a bare strategy call without explicitly supplied
tables begins with fresh empty tables each invocation.  The code contradicts
it: the default dicts are created once at definition time and shared, so
after one bare call on `envU` the module-level default frequency table is
`[(0, 1)]`, not empty — the next bare call starts from the first call's
experience. -/
theorem c4_bare_call_leak :
    bareCallA moduleInit envU 1 (4/5) _alpha 50 (fun _ _ => false)
      (fun _ => 0) = some (1, m1) ∧ m1.dFreqs ≠ [] := by
  refine ⟨?_, ?_⟩
  · with_unfolding_all rfl
  · decide

/-- C5 counterexample: with model `transsC` (state `0`, actions `1` and `3`,
both estimating to `0` under empty utilities) the claim's first-seen
tie-breaking would select action `1`, but `getPolicy` selects action `3`:
Python's `max` over `(estimate, action)` tuples breaks ties by the action
component, so the greatest action wins, not the first-seen one. -/
theorem c5_tie_not_first_seen :
    _getEstimates transsC [] 0 none = some [(0, 1), (0, 3)] ∧
    getPolicy agentC = some [(0, 3)] ∧
    pymax [((0 : ℚ), 1), (0, 3)] = some (0, 3) ∧
    firstSeenMax [((0 : ℚ), 1), (0, 3)] = some (0, 1) ∧
    (3 : ℕ) ≠ 1 := by
  refine ⟨?_, ?_, ?_, ?_, ?_⟩
  · with_unfolding_all rfl
  · with_unfolding_all rfl
  · with_unfolding_all rfl
  · with_unfolding_all rfl
  · decide

/-- C5 amended: the selection of the maximum `(estimate, action)` pair is
deterministic, but ties in the estimate are broken by the ordering on the
action component — `pymax` returns a pair that is in the list and
lexicographically greatest, so among equal estimates the greatest action
wins, not the first-seen one. -/
theorem c5_tie_break_lex_greatest (l : List (ℚ × ℕ)) (m : ℚ × ℕ)
    (h : pymax l = some m) :
    m ∈ l ∧ ∀ x ∈ l, x.1 < m.1 ∨ (x.1 = m.1 ∧ x.2 ≤ m.2) := by
  cases l with
  | nil => cases h
  | cons x xs =>
    simp only [pymax, Option.some.injEq] at h
    subst h
    obtain ⟨hMem, hLe, hAll⟩ := pyfold_spec xs x
    refine ⟨hMem, ?_⟩
    intro y hy
    rcases List.mem_cons.mp hy with hx | hx
    · subst hx; exact hLe
    · exact hAll y hx

/-- Witness for the amended C5 theorem at the concrete tied list. -/
theorem c5_tie_break_lex_greatest_witness :
    ((0 : ℚ), 3) ∈ [((0 : ℚ), 1), ((0 : ℚ), 3)] ∧
      ∀ x ∈ [((0 : ℚ), 1), ((0 : ℚ), 3)],
        x.1 < ((0 : ℚ), 3).1 ∨ (x.1 = ((0 : ℚ), 3).1 ∧ x.2 ≤ ((0 : ℚ), 3).2) :=
  c5_tie_break_lex_greatest [((0 : ℚ), 1), ((0 : ℚ), 3)] ((0 : ℚ), 3)
    (by with_unfolding_all rfl)

/-- C3: in `adp_random_exploration_state`, at every iteration the agent
explores with probability `1/(t+1)` where `t` is the number of distinct
states currently recorded in the frequency table (recomputed at every step),
and always explores when no best action exists: (1) when a best action
exists and the frequency table is nonempty — which part (4) shows holds of
every state produced by a loop step, and part (5) shows the episode starts
with no best action — the explore test succeeds exactly when the random draw
is below `1/(len(freqs)+1)`; (2) with no best action the explore test always
succeeds; (3) an exploring step picks the uniformly random choice among the
currently available actions. -/
theorem c3_experience_scaled_explore :
    (∀ (rndO : ℕ → ℚ) (s : EpState), s.best.isSome → s.freqs ≠ [] →
       (exploreB rndO s = true ↔ rndO s.itr < 1 / ((s.freqs.length : ℚ) + 1)))
  ∧ (∀ (rndO : ℕ → ℚ) (s : EpState), s.best = none → exploreB rndO s = true)
  ∧ (∀ (rndO : ℕ → ℚ) (chO : ℕ → ℕ) (s : EpState), exploreB rndO s = true →
       chooseB rndO chO s = s.actions[chO s.itr % s.actions.length]?)
  ∧ (∀ (e : PyEnv) (rndO : ℕ → ℚ) (chO : ℕ → ℕ) (s s' : EpState) (term : Bool),
       stepB e rndO chO s = some (s', term) → s'.freqs ≠ [] ∧ s'.best.isSome)
  ∧ (∀ (e : PyEnv) (transs : Transs) (utils : Utils) (freqs : Freqs),
       (initEp e transs utils freqs 0 none).best = none) := by
  refine ⟨?_, ?_, ?_, ?_, ?_⟩
  · intro rndO s hb hf
    obtain ⟨a, ha⟩ := Option.isSome_iff_exists.mp hb
    have hlen : ¬ s.freqs.length = 0 := fun hz => hf (List.length_eq_zero.mp hz)
    unfold exploreB tB
    rw [if_neg hlen]
    simp [ha]
  · intro rndO s hb
    unfold exploreB
    simp [hb]
  · intro rndO chO s hx
    unfold chooseB
    rw [if_pos hx]
  · intro e rndO chO s s' term h
    obtain ⟨act, ests, m, ests2, m2, hc, he, hm, hm2, hs, ht⟩ :=
      stepB_shape e rndO chO s s' term h
    subst hs
    constructor
    · exact dset_ne_nil _ _ _
    · rfl
  · intro e transs utils freqs
    rfl

/-- Witness for C3 at concrete loop states on `envU`. -/
theorem c3_experience_scaled_explore_witness :
    (exploreB (fun _ => 0) s1B = true ↔ (0 : ℚ) < 1 / ((1 : ℚ) + 1)) ∧
    exploreB (fun _ => 0) s0 = true ∧
    chooseB (fun _ => 0) (fun _ => 0) s0 = some 7 ∧
    (s1B.freqs ≠ [] ∧ s1B.best.isSome) ∧
    (initEp envU [] [] [] 0 none).best = none :=
  ⟨c3_experience_scaled_explore.1 (fun _ => 0) s1B rfl (by decide),
   c3_experience_scaled_explore.2.1 (fun _ => 0) s0 rfl,
   c3_experience_scaled_explore.2.2.1 (fun _ => 0) (fun _ => 0) s0
     (by with_unfolding_all rfl),
   c3_experience_scaled_explore.2.2.2.1 envU (fun _ => 0) (fun _ => 0) s0 s1B
     true (by with_unfolding_all rfl),
   c3_experience_scaled_explore.2.2.2.2 envU [] [] []⟩

/-- C6: at every step of every strategy's episode loop, the frequency count
incremented is that of the entered state `newState` (not the pre-action
state), and the utility written for the pre-action state is
`U[state] = reward + _alpha(N[state]) * bestEstimate` where `reward` is the
running reward carried from the previous iteration (the newly observed
reward only becomes the `reward` of the successor loop state), and
`bestEstimate` is the best-action estimate recomputed from the updated
model; the episode entry code initializes the running reward to zero. -/
theorem c6_newstate_freq_lagged_reward :
    (∀ (e : PyEnv) (exO : ℕ → ℚ → Bool) (chO : ℕ → ℕ) (tStep : ℚ)
       (s s' : EpState) (term : Bool),
       stepA e exO chO tStep s = some (s', term) →
       ∃ act bestEstimate,
         s'.freqs = dIncr s.freqs (e.doAct s.itr s.state act).1 ∧
         s'.utils = dset s.utils s.state
           (s.reward + _alpha (dgetD s'.freqs s.state 0) * bestEstimate) ∧
         s'.reward = (e.doAct s.itr s.state act).2.1 ∧
         ∃ ests b, _getEstimates s'.transs s.utils s.state
             (some (e.getActions s.state)) = some ests ∧
           pymax ests = some (bestEstimate, b))
  ∧ (∀ (e : PyEnv) (rndO : ℕ → ℚ) (chO : ℕ → ℕ) (s s' : EpState) (term : Bool),
       stepB e rndO chO s = some (s', term) →
       ∃ act bestEstimate,
         s'.freqs = dIncr s.freqs (e.doAct s.itr s.state act).1 ∧
         s'.utils = dset s.utils s.state
           (s.reward + _alpha (dgetD s'.freqs s.state 0) * bestEstimate) ∧
         s'.reward = (e.doAct s.itr s.state act).2.1 ∧
         ∃ ests b, _getEstimates s'.transs s.utils s.state
             (some (e.getActions s.state)) = some ests ∧
           pymax ests = some (bestEstimate, b))
  ∧ (∀ (e : PyEnv) (chO : ℕ → ℕ) (R_plus N_e : ℚ) (s s' : EpState) (term : Bool),
       stepC e chO R_plus N_e s = some (s', term) →
       ∃ act bestEstimate,
         s'.freqs = dIncr s.freqs (e.doAct s.itr s.state act).1 ∧
         s'.utils = dset s.utils s.state
           (s.reward + _alpha (dgetD s'.freqs s.state 0) * bestEstimate) ∧
         s'.reward = (e.doAct s.itr s.state act).2.1 ∧
         ∃ ests b, _getEstimatesOptimistic s'.transs s.utils s.state R_plus N_e
             (some (e.getActions s.state)) = some ests ∧
           pymax ests = some (bestEstimate, b))
  ∧ (∀ (e : PyEnv) (transs : Transs) (utils : Utils) (freqs : Freqs)
       (t0 : ℚ) (best : Option ℕ),
       (initEp e transs utils freqs t0 best).reward = 0) := by
  refine ⟨?_, ?_, ?_, ?_⟩
  · intro e exO chO tStep s s' term h
    obtain ⟨act, ests, m, ests2, m2, hc, he, hm, hm2, hs, ht⟩ :=
      stepA_shape e exO chO tStep s s' term h
    subst hs
    exact ⟨act, m.1, rfl, rfl, rfl, ests, m.2, he, by rw [Prod.mk.eta]; exact hm⟩
  · intro e rndO chO s s' term h
    obtain ⟨act, ests, m, ests2, m2, hc, he, hm, hm2, hs, ht⟩ :=
      stepB_shape e rndO chO s s' term h
    subst hs
    exact ⟨act, m.1, rfl, rfl, rfl, ests, m.2, he, by rw [Prod.mk.eta]; exact hm⟩
  · intro e chO R_plus N_e s s' term h
    obtain ⟨act, ests, m, ests2, m2, hc, he, hm, hm2, hs, ht⟩ :=
      stepC_shape e chO R_plus N_e s s' term h
    subst hs
    exact ⟨act, m.1, rfl, rfl, rfl, ests, m.2, he, by rw [Prod.mk.eta]; exact hm⟩
  · intro e transs utils freqs t0 best
    rfl

/-- Witness for C6: one concrete successful step of each strategy on
`envU`. -/
theorem c6_newstate_freq_lagged_reward_witness :
    (∃ act bestEstimate,
       s1A.freqs = dIncr s0.freqs (envU.doAct s0.itr s0.state act).1 ∧
       s1A.utils = dset s0.utils s0.state
         (s0.reward + _alpha (dgetD s1A.freqs s0.state 0) * bestEstimate) ∧
       s1A.reward = (envU.doAct s0.itr s0.state act).2.1 ∧
       ∃ ests b, _getEstimates s1A.transs s0.utils s0.state
           (some (envU.getActions s0.state)) = some ests ∧
         pymax ests = some (bestEstimate, b)) ∧
    (∃ act bestEstimate,
       s1B.freqs = dIncr s0.freqs (envU.doAct s0.itr s0.state act).1 ∧
       s1B.utils = dset s0.utils s0.state
         (s0.reward + _alpha (dgetD s1B.freqs s0.state 0) * bestEstimate) ∧
       s1B.reward = (envU.doAct s0.itr s0.state act).2.1 ∧
       ∃ ests b, _getEstimates s1B.transs s0.utils s0.state
           (some (envU.getActions s0.state)) = some ests ∧
         pymax ests = some (bestEstimate, b)) ∧
    (∃ act bestEstimate,
       s1C.freqs = dIncr s0.freqs (envU.doAct s0.itr s0.state act).1 ∧
       s1C.utils = dset s0.utils s0.state
         (s0.reward + _alpha (dgetD s1C.freqs s0.state 0) * bestEstimate) ∧
       s1C.reward = (envU.doAct s0.itr s0.state act).2.1 ∧
       ∃ ests b, _getEstimatesOptimistic s1C.transs s0.utils s0.state 5 12
           (some (envU.getActions s0.state)) = some ests ∧
         pymax ests = some (bestEstimate, b)) ∧
    (initEp envU [] [] [] 1 none).reward = 0 :=
  ⟨c6_newstate_freq_lagged_reward.1 envU (fun _ _ => false) (fun _ => 0) (4/5)
     s0 s1A true (by with_unfolding_all rfl),
   c6_newstate_freq_lagged_reward.2.1 envU (fun _ => 0) (fun _ => 0)
     s0 s1B true (by with_unfolding_all rfl),
   c6_newstate_freq_lagged_reward.2.2.1 envU (fun _ => 0) 5 12
     s0 s1C true (by with_unfolding_all rfl),
   c6_newstate_freq_lagged_reward.2.2.2 envU [] [] [] 1 none⟩

/-- C8: for any transition model whose recorded successor counts are all at
least 1 (the data-model invariant), a candidate action with total
observation count zero — i.e. an absent or empty successor mapping — makes
neither estimation routine fault: no division is performed, the plain
estimate for the action is `0`, and the optimistic routine also succeeds
(emitting `R_plus` when `0 < N_e` and the plain `0` otherwise). -/
theorem c8_zero_count_estimates_safe (transs : Transs) (utils : Utils)
    (st ac : ℕ) (R_plus N_e : ℚ)
    (hcounts : ∀ p ∈ dgetD (dgetD transs st []) ac [], 1 ≤ p.2)
    (hn : nTotal transs st ac = 0) :
    _getEstimates transs utils st (some [ac]) = some [(0, ac)] ∧
    _getEstimatesOptimistic transs utils st R_plus N_e (some [ac]) =
      some [if (0 : ℚ) < N_e then (R_plus, ac) else (0, ac)] := by
  have hfe : dgetD (dgetD transs st []) ac [] = [] := by
    cases hf : dgetD (dgetD transs st []) ac [] with
    | nil => rfl
    | cons p rest =>
      exfalso
      have h1 : 1 ≤ p.2 := hcounts p (by rw [hf]; exact List.mem_cons_self p rest)
      unfold nTotal at hn
      rw [hf] at hn
      simp only [List.map_cons, List.sum_cons] at hn
      omega
  constructor
  · unfold _getEstimates resolveActs
    simp [omap, hfe]
  · unfold _getEstimatesOptimistic resolveActs nTotal
    simp [omap, hfe]

/-- Witness for C8 on the empty transition model. -/
theorem c8_zero_count_estimates_safe_witness :
    _getEstimates [] [] 0 (some [0]) = some [(0, 0)] ∧
    _getEstimatesOptimistic [] [] 0 5 12 (some [0]) =
      some [if (0 : ℚ) < 12 then ((5 : ℚ), 0) else (0, 0)] :=
  c8_zero_count_estimates_safe [] [] 0 0 5 12 (by simp [dgetD, dget]) rfl

/-- C9: for every candidate action considered, `_getEstimatesOptimistic`
emits `(R_plus, action)` exactly when the total observation count `n` for
`(state, action)` is below `N_e`, and otherwise emits the very pair the
plain routine `_getEstimates` produces (the expected utility
`sum p * U(successor)`); the substitution is applied pointwise, action by
action, through the `zipWith`. -/
theorem c9_optimistic_per_action_substitution (transs : Transs)
    (utils : Utils) (st : ℕ) (R_plus N_e : ℚ) (ca : Option (List ℕ)) :
    _getEstimatesOptimistic transs utils st R_plus N_e ca =
      (_getEstimates transs utils st ca).map
        (fun lp => List.zipWith
          (fun ac p => if ((nTotal transs st ac : ℚ) < N_e)
                       then (R_plus, ac) else p)
          (resolveActs transs st ca) lp) := by
  unfold _getEstimates _getEstimatesOptimistic
  apply omap_map_zip
  intro ac
  cases hp : omap (fun kv => (pydiv kv.2 (nTotal transs st ac)).map
      (fun q => (kv.1, q))) (dgetD (dgetD transs st []) ac []) <;> simp [hp]

/-- C10: each strategy step only increments frequency counts — every count
is monotonically non-decreasing across any step of any of the three
strategies — and `clearExperience` resets the frequency table, the
transition model, the utility table and the accumulated results to empty. -/
theorem c10_freq_monotone_and_clear :
    (∀ (e : PyEnv) (exO : ℕ → ℚ → Bool) (chO : ℕ → ℕ) (tStep : ℚ)
       (s s' : EpState) (term : Bool),
       stepA e exO chO tStep s = some (s', term) →
       ∀ k, dgetD s.freqs k 0 ≤ dgetD s'.freqs k 0)
  ∧ (∀ (e : PyEnv) (rndO : ℕ → ℚ) (chO : ℕ → ℕ) (s s' : EpState) (term : Bool),
       stepB e rndO chO s = some (s', term) →
       ∀ k, dgetD s.freqs k 0 ≤ dgetD s'.freqs k 0)
  ∧ (∀ (e : PyEnv) (chO : ℕ → ℕ) (R_plus N_e : ℚ) (s s' : EpState) (term : Bool),
       stepC e chO R_plus N_e s = some (s', term) →
       ∀ k, dgetD s.freqs k 0 ≤ dgetD s'.freqs k 0)
  ∧ clearExperience.nTable = [] ∧ clearExperience.transTable = []
  ∧ clearExperience.uTable = [] ∧ clearExperience.results = [] := by
  refine ⟨?_, ?_, ?_, rfl, rfl, rfl, rfl⟩
  · intro e exO chO tStep s s' term h k
    obtain ⟨act, ests, m, ests2, m2, hc, he, hm, hm2, hs, ht⟩ :=
      stepA_shape e exO chO tStep s s' term h
    subst hs
    exact dgetD_dIncr_le s.freqs _ k
  · intro e rndO chO s s' term h k
    obtain ⟨act, ests, m, ests2, m2, hc, he, hm, hm2, hs, ht⟩ :=
      stepB_shape e rndO chO s s' term h
    subst hs
    exact dgetD_dIncr_le s.freqs _ k
  · intro e chO R_plus N_e s s' term h k
    obtain ⟨act, ests, m, ests2, m2, hc, he, hm, hm2, hs, ht⟩ :=
      stepC_shape e chO R_plus N_e s s' term h
    subst hs
    exact dgetD_dIncr_le s.freqs _ k

/-- Witness for C10: the monotonicity implications applied to one concrete
successful step of each strategy. -/
theorem c10_freq_monotone_and_clear_witness :
    dgetD s0.freqs 0 0 ≤ dgetD s1A.freqs 0 0 ∧
    dgetD s0.freqs 0 0 ≤ dgetD s1B.freqs 0 0 ∧
    dgetD s0.freqs 0 0 ≤ dgetD s1C.freqs 0 0 ∧
    clearExperience.nTable = [] :=
  ⟨c10_freq_monotone_and_clear.1 envU (fun _ _ => false) (fun _ => 0) (4/5)
     s0 s1A true (by with_unfolding_all rfl) 0,
   c10_freq_monotone_and_clear.2.1 envU (fun _ => 0) (fun _ => 0)
     s0 s1B true (by with_unfolding_all rfl) 0,
   c10_freq_monotone_and_clear.2.2.1 envU (fun _ => 0) 5 12
     s0 s1C true (by with_unfolding_all rfl) 0,
   c10_freq_monotone_and_clear.2.2.2.1⟩

/-- C7: `solve` takes the policy's action for every state that has one and
falls back to a uniformly random legal action otherwise (parts 1-2); every
executed action is appended to the trace (part 3); on environment-signaled
termination it returns the trace with the accumulated reward (part 4); and
on an environment that always returns reward `-2000` and never terminates it
hard-aborts through the `-1000` divergence threshold after exactly one step
— well within the 500-step bound (part 5). -/
theorem c7_solve_contract :
    (∀ (e : PyEnv) (chO : ℕ → ℕ) (k : ℕ) (policy : Policy) (st a : ℕ),
       dget policy st = some a → chooseSolve e chO k policy st = some a)
  ∧ (∀ (e : PyEnv) (chO : ℕ → ℕ) (k : ℕ) (policy : Policy) (st : ℕ),
       dget policy st = none →
       chooseSolve e chO k policy st =
         (e.getActions st)[chO k % (e.getActions st).length]?)
  ∧ (∀ (e : PyEnv) (chO : ℕ → ℕ) (policy : Policy) (fuel k st : ℕ)
       (acts : List ℕ) (energy : ℚ) (tr : List ℕ) (en : ℚ),
       solveLoop e chO policy fuel k st acts energy = some (tr, en) →
       ∃ rest, tr = acts ++ rest)
  ∧ (∀ (e : PyEnv) (chO : ℕ → ℕ) (policy : Policy) (fuel k st : ℕ)
       (acts : List ℕ) (energy : ℚ) (act : ℕ),
       chooseSolve e chO k policy st = some act →
       (e.doAct k st act).2.2 = true →
       solveLoop e chO policy (fuel + 1) k st acts energy =
         some (acts ++ [act], energy + (e.doAct k st act).2.1))
  ∧ (∀ (e : PyEnv) (chO : ℕ → ℕ) (policy : Policy) (fuel : ℕ),
       (∀ k s a, (e.doAct k s a).2.1 = -2000 ∧ (e.doAct k s a).2.2 = false) →
       (chooseSolve e chO 0 policy e.getStartingState).isSome →
       1 ≤ fuel →
       ∃ tr en, solve e chO policy fuel = some (tr, en) ∧
         tr.length = 1 ∧ en = -2000 ∧ tr.length ≤ 500) := by
  refine ⟨?_, ?_, ?_, ?_, ?_⟩
  · intro e chO k policy st a h
    unfold chooseSolve
    rw [h]
  · intro e chO k policy st h
    unfold chooseSolve
    rw [h]
  · exact fun e chO policy => solveLoop_extends e chO policy
  · intro e chO policy fuel k st acts energy act hc hterm
    unfold solveLoop
    simp only [hc]
    rcases hdo : e.doAct k st act with ⟨st', r, term⟩
    rw [hdo] at hterm
    simp only at hterm
    simp only [hdo]
    simp [hterm]
  · intro e chO policy fuel hdiv hchoose hfuel
    obtain ⟨f, rfl⟩ : ∃ f, fuel = f + 1 := ⟨fuel - 1, by omega⟩
    obtain ⟨act, hact⟩ := Option.isSome_iff_exists.mp hchoose
    refine ⟨[act], -2000, ?_, rfl, rfl, by norm_num⟩
    unfold solve solveLoop
    simp only [hact]
    rcases hdo : e.doAct 0 e.getStartingState act with ⟨st', r, term⟩
    have h1 := (hdiv 0 e.getStartingState act).1
    have h2 := (hdiv 0 e.getStartingState act).2
    rw [hdo] at h1 h2
    simp only at h1 h2
    subst h1
    subst h2
    simp only [hdo]
    norm_num

/-- Witness for C7: the policy-lookup, fallback, trace-extension, terminal
and divergence-abort components at concrete inputs (`envD` always returns
`-2000` and never terminates; `envU` terminates immediately). -/
theorem c7_solve_contract_witness :
    chooseSolve envD (fun _ => 0) 0 [(0, 9)] 0 = some 9 ∧
    chooseSolve envD (fun _ => 0) 0 [] 1 =
      (envD.getActions 1)[0 % (envD.getActions 1).length]? ∧
    (∃ rest, [4] = ([] : List ℕ) ++ rest) ∧
    solveLoop envU (fun _ => 0) [] 1 0 0 [] 0 =
      some ([] ++ [7], 0 + (envU.doAct 0 0 7).2.1) ∧
    (∃ tr en, solve envD (fun _ => 0) [] 5 = some (tr, en) ∧
      tr.length = 1 ∧ en = -2000 ∧ tr.length ≤ 500) :=
  ⟨c7_solve_contract.1 envD (fun _ => 0) 0 [(0, 9)] 0 9 rfl,
   c7_solve_contract.2.1 envD (fun _ => 0) 0 [] 1 rfl,
   c7_solve_contract.2.2.1 envD (fun _ => 0) [] 1 0 0 [] 0 [4] (-2000)
     (by with_unfolding_all rfl),
   c7_solve_contract.2.2.2.1 envU (fun _ => 0) [] 0 0 0 [] 0 7 rfl rfl,
   c7_solve_contract.2.2.2.2 envD (fun _ => 0) [] 5
     (fun _ _ _ => ⟨rfl, rfl⟩) rfl (by norm_num)⟩
